import Mathlib

/-!
Verification of the duplicate / near-duplicate Python function detector pair
(`find_duplicate_functions.py` and `find_near_duplicate_functions.py`).

The Python code is shallowly embedded: dictionaries become association lists
(iteration in insertion order), `defaultdict` grouping becomes order-preserving
`List.filter`, Python's stable `list.sort` becomes the stable
`List.insertionSort` (two stable sorts with the same key comparison agree
pointwise), floats become exact rationals, and the in-place AST mutation of the
normalizer is rendered as map construction followed by a substitution pass
(the two agree because every map entry is written at most once and each node is
visited exactly once).
-/

set_option maxRecDepth 40000

namespace DupFind

/-- A function record as produced by `collect_functions` of
`find_near_duplicate_functions.py`: relative path, declared name, starting
line number, and the name-agnostic normalized AST dump. -/
structure FuncRecord where
  path : String
  name : String
  lineno : Option Int
  normalized_dump : String
deriving DecidableEq

/-- Embedding of `bucket_key`: `len(s) // 120`.  Python floor division on the
nonnegative length agrees with natural division; the key is kept as an integer
because the main loop consults bucket `k - 1`. -/
def bucket_key (s : String) : Int := ((s.length / 120 : Nat) : Int)

/-! ### difflib.SequenceMatcher(None, a, b).ratio()

Faithful embedding of CPython's `difflib.SequenceMatcher` with `isjunk = None`
(so the junk set is empty) and the default `autojunk = True`.  The float ratio
`2.0 * matches / (len(a) + len(b))` is computed exactly in `ℚ`. -/

/-- Ascending list of positions of `c` in `b`: the list `b2j[c]` built by
`SequenceMatcher.__chain_b` via `enumerate`. -/
def indexesOf (c : Char) (b : List Char) : List Nat :=
  b.enum.filterMap (fun p => if p.2 = c then some p.1 else none)

/-- The `autojunk` popularity test: for sequences of length at least 200,
elements occurring more than `n // 100 + 1` times are dropped from `b2j`. -/
def isPopular (b : List Char) (c : Char) : Bool :=
  decide (200 ≤ b.length) && decide (b.length / 100 + 1 < (indexesOf c b).length)

/-- `b2j` lookup after autojunk elimination (missing keys give `[]`, matching
`b2j.get(elt, [])`). -/
def b2j (b : List Char) (c : Char) : List Nat :=
  if isPopular b c then [] else indexesOf c b

/-- Lookup in the association list modelling the Python dict `j2len`,
defaulting to 0 (`j2len.get(j - 1, 0)`). -/
def j2lenGet (m : List (Nat × Nat)) (j : Nat) : Nat :=
  ((m.find? (fun p => p.1 == j)).map (fun p => p.2)).getD 0

/-- The running best match of `find_longest_match`. -/
structure FlmState where
  besti : Nat
  bestj : Nat
  bestsize : Nat
deriving DecidableEq

/-- Inner loop of `find_longest_match` over `b2j[a[i]]`: positions below `blo`
are skipped (`continue`), the first position at or above `bhi` stops the loop
(`break`; the index lists are ascending), and each surviving position `j`
extends the run ending at `(i - 1, j - 1)` recorded in the previous row
`j2len`.  Python's `j2len.get(j - 1, 0)` at `j = 0` consults key `-1`, which is
never present, hence the explicit zero case. -/
def flmInner (blo bhi i : Nat) (j2len : List (Nat × Nat)) :
    List Nat → FlmState → List (Nat × Nat) → FlmState × List (Nat × Nat)
  | [], st, newm => (st, newm)
  | j :: js, st, newm =>
    if j < blo then flmInner blo bhi i j2len js st newm
    else if bhi ≤ j then (st, newm)
    else
      let k := (if j = 0 then 0 else j2lenGet j2len (j - 1)) + 1
      let newm2 := (j, k) :: newm
      let st2 : FlmState := if st.bestsize < k then ⟨i + 1 - k, j + 1 - k, k⟩ else st
      flmInner blo bhi i j2len js st2 newm2

/-- Outer loop of `find_longest_match` over `i` in `range(alo, ahi)`; the
first argument counts the remaining iterations `ahi - i`. -/
def flmOuter (a b : List Char) (blo bhi : Nat) :
    Nat → Nat → FlmState → List (Nat × Nat) → FlmState
  | 0, _, st, _ => st
  | steps + 1, i, st, j2len =>
    let p := flmInner blo bhi i j2len (b2j b (a.getD i (Char.ofNat 0))) st []
    flmOuter a b blo bhi steps (i + 1) p.1 p.2

/-- First extension loop of `find_longest_match`: with an empty junk set the
`while` condition is `besti > alo and bestj > blo and a[besti-1] == b[bestj-1]`.
The fuel is initialised to `besti`, which bounds the number of decrements. -/
def extendLower (a b : List Char) (alo blo : Nat) : Nat → FlmState → FlmState
  | 0, st => st
  | fuel + 1, st =>
    if alo < st.besti ∧ blo < st.bestj ∧
        a.getD (st.besti - 1) (Char.ofNat 0) = b.getD (st.bestj - 1) (Char.ofNat 1) then
      extendLower a b alo blo fuel ⟨st.besti - 1, st.bestj - 1, st.bestsize + 1⟩
    else st

/-- Second extension loop of `find_longest_match`; the fuel bounds the number
of increments by `ahi - (besti + bestsize)`.  The remaining two `while` loops
of the source only extend over junk elements and with `isjunk = None` the junk
set is empty, so they never fire and are omitted. -/
def extendUpper (a b : List Char) (ahi bhi : Nat) : Nat → FlmState → FlmState
  | 0, st => st
  | fuel + 1, st =>
    if st.besti + st.bestsize < ahi ∧ st.bestj + st.bestsize < bhi ∧
        a.getD (st.besti + st.bestsize) (Char.ofNat 0)
          = b.getD (st.bestj + st.bestsize) (Char.ofNat 1) then
      extendUpper a b ahi bhi fuel ⟨st.besti, st.bestj, st.bestsize + 1⟩
    else st

/-- Embedding of `SequenceMatcher.find_longest_match(alo, ahi, blo, bhi)`. -/
def find_longest_match (a b : List Char) (alo ahi blo bhi : Nat) : FlmState :=
  let st := flmOuter a b blo bhi (ahi - alo) alo ⟨alo, blo, 0⟩ []
  let st2 := extendLower a b alo blo st.besti st
  extendUpper a b ahi bhi (ahi - (st2.besti + st2.bestsize)) st2

/-- Total size of the matching blocks found by `get_matching_blocks`: the
queue-driven loop of the source processes each subrange independently, so the
multiset of blocks (and hence the sum of their sizes, which is all `ratio`
uses; the adjacent-block merge only regroups sizes) equals this recursive sum.
Each recursive call strictly shrinks `ahi - alo`, so fuel `len(a) + 1`
suffices. -/
def matchingTotal (a b : List Char) : Nat → Nat → Nat → Nat → Nat → Nat
  | 0, _, _, _, _ => 0
  | fuel + 1, alo, ahi, blo, bhi =>
    let m := find_longest_match a b alo ahi blo bhi
    if m.bestsize = 0 then 0
    else
      m.bestsize
        + (if alo < m.besti ∧ blo < m.bestj then
            matchingTotal a b fuel alo m.besti blo m.bestj else 0)
        + (if m.besti + m.bestsize < ahi ∧ m.bestj + m.bestsize < bhi then
            matchingTotal a b fuel (m.besti + m.bestsize) ahi (m.bestj + m.bestsize) bhi
          else 0)

/-- Embedding of `SequenceMatcher(None, a, b).ratio()`:
`2.0 * matches / (len(a) + len(b))`, and 1 when both sequences are empty
(`_calculate_ratio`). -/
def seqRatio (a b : List Char) : ℚ :=
  let total := a.length + b.length
  if total = 0 then 1
  else mkRat (2 * (matchingTotal a b (a.length + 1) 0 a.length 0 b.length)) total

/-- `ratio` on the two normalized dump strings. -/
def ratioStr (x y : String) : ℚ := seqRatio x.data y.data

/-! ### The near-duplicate pairing loop of `main` -/

/-- A reported similarity pair `{"a": a, "b": b, "ratio": r}`. -/
structure SimPair where
  a : FuncRecord
  b : FuncRecord
  ratio : ℚ
deriving DecidableEq

/-- The self-pair skip: `a["path"] == b["path"] and a.get("lineno") == b.get("lineno")`. -/
def samePlace (x y : FuncRecord) : Bool :=
  x.path == y.path && x.lineno == y.lineno

/-- The length pre-filter: `abs(la - lb) > max(120, min(la, lb) * 0.35)`, with
the float literal `0.35` taken exactly as `35/100`. -/
def lengthSkip (x y : FuncRecord) : Bool :=
  let la := x.normalized_dump.length
  let lb := y.normalized_dump.length
  decide ((max 120 (mkRat (min la lb * 35) 100)) < ((max la lb - min la lb : ℕ) : ℚ))

/-- One iteration of the innermost comparison loop: skip self-pairs, skip
pairs failing the length pre-filter, then compute the ratio and keep the pair
exactly when `r >= threshold`. -/
def considerPair (t : ℚ) (x y : FuncRecord) : Option SimPair :=
  if samePlace x y then none
  else if lengthSkip x y then none
  else
    let r := ratioStr x.normalized_dump y.normalized_dump
    if t ≤ r then some ⟨x, y, r⟩ else none

/-- All ordered index pairs `i < j` of a list, in the iteration order of the
two nested `for` loops. -/
def orderedPairs : List α → List (α × α)
  | [] => []
  | x :: xs => xs.map (fun y => (x, y)) ++ orderedPairs xs

/-- The list `buckets[k]` (possibly empty, matching `buckets.get(k, [])`):
the records appended for key `k`, in input order. -/
def bucketOf (funcs : List FuncRecord) (k : Int) : List FuncRecord :=
  funcs.filter (fun f => bucket_key f.normalized_dump == k)

/-- Duplicate elimination keeping first occurrences, as Python dict keys do;
`seen` accumulates the keys already emitted. -/
def firstDedupAux [DecidableEq α] (seen : List α) : List α → List α
  | [] => []
  | x :: xs =>
    if x ∈ seen then firstDedupAux seen xs else x :: firstDedupAux (x :: seen) xs

/-- Duplicate elimination keeping first occurrences, as Python dict keys do. -/
def firstDedup [DecidableEq α] : List α → List α := firstDedupAux []

/-- `keys = sorted(buckets.keys())`: the distinct bucket keys in ascending
order. -/
def sortedKeys (funcs : List FuncRecord) : List Int :=
  (firstDedup (funcs.map (fun f => bucket_key f.normalized_dump))).insertionSort (· ≤ ·)

/-- `candidates = buckets[k] + buckets.get(k - 1, []) + buckets.get(k + 1, [])`. -/
def windowCandidates (funcs : List FuncRecord) (k : Int) : List FuncRecord :=
  bucketOf funcs k ++ bucketOf funcs (k - 1) ++ bucketOf funcs (k + 1)

/-- The pairs appended to `pairs` while processing one bucket window. -/
def windowKept (t : ℚ) (cands : List FuncRecord) : List SimPair :=
  (orderedPairs cands).filterMap (fun p => considerPair t p.1 p.2)

/-- The candidate pairs of one bucket window that survive both skips and
therefore reach the `SequenceMatcher` ratio computation. -/
def windowCompared (cands : List FuncRecord) : List (FuncRecord × FuncRecord) :=
  (orderedPairs cands).filter (fun p => !samePlace p.1 p.2 && !lengthSkip p.1 p.2)

/-- The full `pairs` list accumulated over all bucket windows, before the
final sort. -/
def allKeptPairs (t : ℚ) (funcs : List FuncRecord) : List SimPair :=
  (sortedKeys funcs).flatMap (fun k => windowKept t (windowCandidates funcs k))

/-- Every candidate pair of the run whose similarity ratio is computed. -/
def comparedPairs (funcs : List FuncRecord) : List (FuncRecord × FuncRecord) :=
  (sortedKeys funcs).flatMap (fun k => windowCompared (windowCandidates funcs k))

/-- `pairs.sort(key=lambda x: x["ratio"], reverse=True)`: a stable sort by
descending ratio. -/
def nearDuplicatePairs (t : ℚ) (funcs : List FuncRecord) : List SimPair :=
  (allKeptPairs t funcs).insertionSort (fun p q => q.ratio ≤ p.ratio)

/-- The pairs list written to the JSON payload: `pairs[:500]`. -/
def reportedPairs (t : ℚ) (funcs : List FuncRecord) : List SimPair :=
  (nearDuplicatePairs t funcs).take 500

/-! ### The Python AST model

A model of the `ast` nodes the two tools operate on: module-level function
definitions with a representative body grammar.  Every located node carries
the four position attributes; unmodelled fields (`ctx`, decorators, type
comments, position-only/keyword-only parameters, defaults) are omitted from
the model and from its dump. -/

/-- The position attributes `lineno`, `col_offset`, `end_lineno`,
`end_col_offset` of a located AST node. -/
structure Pos where
  lineno : Option Int
  col_offset : Option Int
  end_lineno : Option Int
  end_col_offset : Option Int
deriving DecidableEq

/-- The position value after the strip loop has set every attribute to `None`. -/
def Pos.stripped : Pos := ⟨none, none, none, none⟩

/-- An `ast.arg` node: one formal parameter. -/
structure PyArg where
  pos : Pos
  arg : String
deriving DecidableEq

/-- An `ast.arguments` node (modelled fields: `args`, `vararg`, `kwarg`). -/
structure PyArguments where
  args : List PyArg
  vararg : Option PyArg
  kwarg : Option PyArg
deriving DecidableEq

/-- An `ast.Constant` payload. -/
inductive PyConst where
  | intC (n : Int)
  | strC (s : String)
  | boolC (b : Bool)
  | noneC
deriving DecidableEq

/-- Expression nodes: `Name`, `Constant`, `BinOp`, `Call`, `Lambda`. -/
inductive PyExpr where
  | name (pos : Pos) (id : String)
  | const (pos : Pos) (v : PyConst)
  | binop (pos : Pos) (op : String) (left right : PyExpr)
  | call (pos : Pos) (func : PyExpr) (args : List PyExpr)
  | lam (pos : Pos) (args : PyArguments) (body : PyExpr)

/-- Statement nodes: `Return`, `Assign`, `Expr`, `If`, `Pass`. -/
inductive PyStmt where
  | ret (pos : Pos) (value : Option PyExpr)
  | assign (pos : Pos) (targets : List PyExpr) (value : PyExpr)
  | exprStmt (pos : Pos) (value : PyExpr)
  | ifStmt (pos : Pos) (test : PyExpr) (body orelse : List PyStmt)
  | passStmt (pos : Pos)

/-- An `ast.FunctionDef` or `ast.AsyncFunctionDef` node. -/
structure PyFunctionDef where
  pos : Pos
  name : String
  args : PyArguments
  body : List PyStmt
  isAsync : Bool

/-- A module-body statement: either a function-like definition or anything
else (the `isinstance(node, (ast.FunctionDef, ast.AsyncFunctionDef))` test). -/
inductive PyTopStmt where
  | fdef (f : PyFunctionDef)
  | other (s : PyStmt)

/-- A parsed module: `ast.parse(src).body`. -/
abbrev PyModule := List PyTopStmt

/-! ### Stripping position attributes

The loop `for t in ast.walk(n): for attr in (...): setattr(t, attr, None)`. -/

def stripArg (a : PyArg) : PyArg := { a with pos := Pos.stripped }

def stripArguments (a : PyArguments) : PyArguments :=
  ⟨a.args.map stripArg, a.vararg.map stripArg, a.kwarg.map stripArg⟩

mutual
def stripExpr : PyExpr → PyExpr
  | .name _ id => .name Pos.stripped id
  | .const _ v => .const Pos.stripped v
  | .binop _ op l r => .binop Pos.stripped op (stripExpr l) (stripExpr r)
  | .call _ f as => .call Pos.stripped (stripExpr f) (stripExprList as)
  | .lam _ as b => .lam Pos.stripped (stripArguments as) (stripExpr b)
def stripExprList : List PyExpr → List PyExpr
  | [] => []
  | e :: es => stripExpr e :: stripExprList es
end

mutual
def stripStmt : PyStmt → PyStmt
  | .ret _ v => .ret Pos.stripped (v.map stripExpr)
  | .assign _ ts v => .assign Pos.stripped (stripExprList ts) (stripExpr v)
  | .exprStmt _ e => .exprStmt Pos.stripped (stripExpr e)
  | .ifStmt _ t b o => .ifStmt Pos.stripped (stripExpr t) (stripStmtList b) (stripStmtList o)
  | .passStmt _ => .passStmt Pos.stripped
def stripStmtList : List PyStmt → List PyStmt
  | [] => []
  | s :: ss => stripStmt s :: stripStmtList ss
end

def stripFunctionDef (f : PyFunctionDef) : PyFunctionDef :=
  { f with pos := Pos.stripped, args := stripArguments f.args, body := stripStmtList f.body }

/-! ### The canonical dump `ast.dump(n, include_attributes=False)`

Deterministic serialization of the modelled fields; position attributes are
never printed (matching `include_attributes=False`, which makes the strip loop
semantically redundant but kept for source fidelity). -/

def commaSep : List String → String
  | [] => ""
  | [s] => s
  | s :: rest => s ++ ", " ++ commaSep rest

/-- Quote an identifier or string payload the way `ast.dump` prints it. -/
def quoteStr (s : String) : String := "\x27" ++ s ++ "\x27"

def dumpConst : PyConst → String
  | .intC n => toString n
  | .strC s => quoteStr s
  | .boolC b => if b then "True" else "False"
  | .noneC => "None"

def dumpArg (a : PyArg) : String := "arg(arg=" ++ quoteStr a.arg ++ ")"

def dumpOptArg : Option PyArg → String
  | Option.none => "None"
  | some a => dumpArg a

def dumpArguments (a : PyArguments) : String :=
  "arguments(args=[" ++ commaSep (a.args.map dumpArg) ++ "], vararg="
    ++ dumpOptArg a.vararg ++ ", kwarg=" ++ dumpOptArg a.kwarg ++ ")"

mutual
def dumpExpr : PyExpr → String
  | .name _ id => "Name(id=" ++ quoteStr id ++ ")"
  | .const _ v => "Constant(value=" ++ dumpConst v ++ ")"
  | .binop _ op l r =>
    "BinOp(left=" ++ dumpExpr l ++ ", op=" ++ op ++ "(), right=" ++ dumpExpr r ++ ")"
  | .call _ f as => "Call(func=" ++ dumpExpr f ++ ", args=[" ++ commaSep (dumpExprList as) ++ "])"
  | .lam _ as b => "Lambda(args=" ++ dumpArguments as ++ ", body=" ++ dumpExpr b ++ ")"
def dumpExprList : List PyExpr → List String
  | [] => []
  | e :: es => dumpExpr e :: dumpExprList es
end

def dumpOptExpr : Option PyExpr → String
  | Option.none => "None"
  | some e => dumpExpr e

mutual
def dumpStmt : PyStmt → String
  | .ret _ v => "Return(value=" ++ dumpOptExpr v ++ ")"
  | .assign _ ts v =>
    "Assign(targets=[" ++ commaSep (dumpExprList ts) ++ "], value=" ++ dumpExpr v ++ ")"
  | .exprStmt _ e => "Expr(value=" ++ dumpExpr e ++ ")"
  | .ifStmt _ t b o =>
    "If(test=" ++ dumpExpr t ++ ", body=[" ++ commaSep (dumpStmtList b)
      ++ "], orelse=[" ++ commaSep (dumpStmtList o) ++ "])"
  | .passStmt _ => "Pass()"
def dumpStmtList : List PyStmt → List String
  | [] => []
  | s :: ss => dumpStmt s :: dumpStmtList ss
end

def dumpFunctionDef (f : PyFunctionDef) : String :=
  (if f.isAsync then "AsyncFunctionDef(name=" else "FunctionDef(name=")
    ++ quoteStr f.name ++ ", args=" ++ dumpArguments f.args
    ++ ", body=[" ++ commaSep (dumpStmtList f.body) ++ "])"

/-- Embedding of `normalized_ast_dump` of `find_duplicate_functions.py`:
strip every position attribute, then dump without attributes. -/
def normalized_ast_dump (f : PyFunctionDef) : String :=
  dumpFunctionDef (stripFunctionDef f)

/-! ### The name-agnostic normalizer `normalized_function_body_dump`

The source mutates a deep copy in place: it renames the function, renames the
parameter nodes while recording `arg_map`, then walks the tree breadth-first
(`ast.walk` uses a FIFO queue), assigning `VAR<n>` placeholders to `Name`
identifiers in first-visit order and re-applying `arg_map` to every `ast.arg`
node it encounters.  The embedding renders this as: build the final maps
(each map entry is written at most once, and every node is read once before
being written, so interleaving is immaterial), then substitute. -/

/-- Python dict lookup over an insertion-ordered association list. -/
def mapLookup (m : List (String × String)) (k : String) : Option String :=
  (m.find? (fun p => p.1 == k)).map (fun p => p.2)

/-- Python dict assignment `m[k] = v`: overwrite in place or append. -/
def dictInsert (m : List (String × String)) (k v : String) : List (String × String) :=
  if (m.find? (fun p => p.1 == k)).isSome then
    m.map (fun p => if p.1 == k then (p.1, v) else p)
  else m ++ [(k, v)]

/-- `arg_map`: original positional parameter names to `ARG<i>`, the variadic
positional parameter to `VARARG`, the variadic keyword parameter to `KWARG`. -/
def buildArgMap (a : PyArguments) : List (String × String) :=
  let m := a.args.enum.foldl (fun m p => dictInsert m p.2.arg ("ARG" ++ toString p.1)) []
  let m := match a.vararg with
    | some v => dictInsert m v.arg "VARARG"
    | Option.none => m
  match a.kwarg with
  | some v => dictInsert m v.arg "KWARG"
  | Option.none => m

/-- The in-place renaming of the parameter nodes performed while `arg_map` is
being recorded (`a.arg = f"ARG{i}"` and the `vararg`/`kwarg` analogues). -/
def renameParams (a : PyArguments) : PyArguments :=
  ⟨a.args.enum.map (fun p => { p.2 with arg := "ARG" ++ toString p.1 }),
    a.vararg.map (fun v => { v with arg := "VARARG" }),
    a.kwarg.map (fun v => { v with arg := "KWARG" })⟩

/-- A node of the walk, as `ast.walk` sees it. -/
inductive PyNode where
  | fd (f : PyFunctionDef)
  | argsN (a : PyArguments)
  | argN (a : PyArg)
  | st (s : PyStmt)
  | ex (e : PyExpr)

/-- `ast.iter_child_nodes` in field order, restricted to the modelled fields
(skipped unmodelled children such as `ctx` and operator nodes carry no `Name`
or `arg` descendants, so their omission does not affect the walk output). -/
def exprChildren : PyExpr → List PyNode
  | .name _ _ => []
  | .const _ _ => []
  | .binop _ _ l r => [.ex l, .ex r]
  | .call _ f as => .ex f :: as.map PyNode.ex
  | .lam _ as b => [.argsN as, .ex b]

def stmtChildren : PyStmt → List PyNode
  | .ret _ v => (v.map (fun e => [PyNode.ex e])).getD []
  | .assign _ ts v => ts.map PyNode.ex ++ [.ex v]
  | .exprStmt _ e => [.ex e]
  | .ifStmt _ t b o => .ex t :: (b.map PyNode.st ++ o.map PyNode.st)
  | .passStmt _ => []

def argumentsChildren (a : PyArguments) : List PyNode :=
  a.args.map PyNode.argN ++ (a.vararg.map (fun v => [PyNode.argN v])).getD []
    ++ (a.kwarg.map (fun v => [PyNode.argN v])).getD []

def nodeChildren : PyNode → List PyNode
  | .fd f => .argsN f.args :: f.body.map PyNode.st
  | .argsN a => argumentsChildren a
  | .argN _ => []
  | .st s => stmtChildren s
  | .ex e => exprChildren e

/-- Node counts, used to bound the breadth-first traversal. -/
def sizeArguments (a : PyArguments) : Nat :=
  1 + a.args.length + (if a.vararg.isSome then 1 else 0) + (if a.kwarg.isSome then 1 else 0)

mutual
def sizeExpr : PyExpr → Nat
  | .name _ _ => 1
  | .const _ _ => 1
  | .binop _ _ l r => 1 + sizeExpr l + sizeExpr r
  | .call _ f as => 1 + sizeExpr f + sizeExprList as
  | .lam _ as b => 1 + sizeArguments as + sizeExpr b
def sizeExprList : List PyExpr → Nat
  | [] => 0
  | e :: es => sizeExpr e + sizeExprList es
end

def sizeOptExpr : Option PyExpr → Nat
  | Option.none => 0
  | some e => sizeExpr e

mutual
def sizeStmt : PyStmt → Nat
  | .ret _ v => 1 + sizeOptExpr v
  | .assign _ ts v => 1 + sizeExprList ts + sizeExpr v
  | .exprStmt _ e => 1 + sizeExpr e
  | .ifStmt _ t b o => 1 + sizeExpr t + sizeStmtList b + sizeStmtList o
  | .passStmt _ => 1
def sizeStmtList : List PyStmt → Nat
  | [] => 0
  | s :: ss => sizeStmt s + sizeStmtList ss
end

def sizeFunctionDef (f : PyFunctionDef) : Nat :=
  1 + sizeArguments f.args + sizeStmtList f.body

/-- `ast.walk`: breadth-first traversal with a FIFO queue.  Each node is
dequeued exactly once, so fuel equal to the node count suffices. -/
def bfsWalk : Nat → List PyNode → List PyNode
  | 0, _ => []
  | _ + 1, [] => []
  | fuel + 1, n :: queue => n :: bfsWalk fuel (queue ++ nodeChildren n)

/-- The identifiers of the `Name` nodes in walk (breadth-first) order. -/
def walkIds (f : PyFunctionDef) : List String :=
  (bfsWalk (sizeFunctionDef f) [.fd f]).filterMap (fun n =>
    match n with
    | .ex (.name _ id) => some id
    | _ => none)

/-- The identifiers never renamed: references to the literals. -/
def literalIds : List String := ["True", "False", "None"]

/-- `name_map` and its counter after folding the walked identifiers in order:
an identifier gets `VAR<counter>` the first time it is seen, unless it is a
literal or a key of `arg_map`. -/
def buildNameMap (argMap : List (String × String)) (ids : List String) :
    List (String × String) :=
  (ids.foldl (fun st id =>
      if id ∈ literalIds then st
      else if (mapLookup argMap id).isSome then st
      else if (mapLookup st.1 id).isSome then st
      else (dictInsert st.1 id ("VAR" ++ toString st.2), st.2 + 1))
    ([], 0)).1

/-- The replacement of a `Name` identifier: literals are kept, parameters take
their `arg_map` placeholder, anything else its `name_map` placeholder. -/
def renameId (argMap nameMap : List (String × String)) (id : String) : String :=
  if id ∈ literalIds then id
  else match mapLookup argMap id with
    | some v => v
    | Option.none => (mapLookup nameMap id).getD id

/-- The `ast.arg` branch of the walk: `if t.arg in arg_map: t.arg = arg_map[t.arg]`,
applied to the current (possibly already renamed) parameter name. -/
def renameArgNode (argMap : List (String × String)) (a : PyArg) : PyArg :=
  match mapLookup argMap a.arg with
  | some v => { a with arg := v }
  | Option.none => a

def renameArguments (argMap : List (String × String)) (a : PyArguments) : PyArguments :=
  ⟨a.args.map (renameArgNode argMap), a.vararg.map (renameArgNode argMap),
    a.kwarg.map (renameArgNode argMap)⟩

mutual
def renameExpr (am nm : List (String × String)) : PyExpr → PyExpr
  | .name p id => .name p (renameId am nm id)
  | .const p v => .const p v
  | .binop p op l r => .binop p op (renameExpr am nm l) (renameExpr am nm r)
  | .call p f as => .call p (renameExpr am nm f) (renameExprList am nm as)
  | .lam p as b => .lam p (renameArguments am as) (renameExpr am nm b)
def renameExprList (am nm : List (String × String)) : List PyExpr → List PyExpr
  | [] => []
  | e :: es => renameExpr am nm e :: renameExprList am nm es
end

mutual
def renameStmt (am nm : List (String × String)) : PyStmt → PyStmt
  | .ret p v => .ret p (v.map (renameExpr am nm))
  | .assign p ts v => .assign p (renameExprList am nm ts) (renameExpr am nm v)
  | .exprStmt p e => .exprStmt p (renameExpr am nm e)
  | .ifStmt p t b o => .ifStmt p (renameExpr am nm t) (renameStmtList am nm b) (renameStmtList am nm o)
  | .passStmt p => .passStmt p
def renameStmtList (am nm : List (String × String)) : List PyStmt → List PyStmt
  | [] => []
  | s :: ss => renameStmt am nm s :: renameStmtList am nm ss
end

/-- The whole in-place normalization of the copied function node: rename the
function to `FUNC`, rename the parameter nodes, then perform the walk that
renames every `Name` and re-applies `arg_map` to every `ast.arg` node. -/
def normalizeFunc (f : PyFunctionDef) : PyFunctionDef :=
  let am := buildArgMap f.args
  let fd1 : PyFunctionDef := { f with name := "FUNC", args := renameParams f.args }
  let nm := buildNameMap am (walkIds fd1)
  { fd1 with args := renameArguments am fd1.args,
             body := renameStmtList am nm fd1.body }

/-- Embedding of `normalized_function_body_dump`: `None` on anything that is
not a function-like definition, otherwise the attribute-free dump of the
normalized, position-stripped copy.  The `try/except` guards of the source
cannot fire in the pure model. -/
def normalized_function_body_dump : PyTopStmt → Option String
  | .other _ => none
  | .fdef f => some (dumpFunctionDef (stripFunctionDef (normalizeFunc f)))

/-! ### `hash_text`: SHA-256 hex digest of the UTF-8 encoded dump

`hashlib.sha256(text.encode("utf-8")).hexdigest()`, embedded over `Nat`
bytes and 32-bit words reduced with explicit `% 2 ^ 32`. -/

/-- UTF-8 encoding of one code point. -/
def utf8Char (c : Char) : List Nat :=
  let cp := c.toNat
  if cp < 128 then [cp]
  else if cp < 2048 then [192 + cp / 64, 128 + cp % 64]
  else if cp < 65536 then [224 + cp / 4096, 128 + cp / 64 % 64, 128 + cp % 64]
  else [240 + cp / 262144, 128 + cp / 4096 % 64, 128 + cp / 64 % 64, 128 + cp % 64]

def utf8Encode (s : String) : List Nat := s.data.flatMap utf8Char

/-- Reduce to a 32-bit word. -/
def w32 (x : Nat) : Nat := x % 4294967296

/-- 32-bit right rotation. -/
def rotr32 (n x : Nat) : Nat := w32 (x / 2 ^ n + x % 2 ^ n * 2 ^ (32 - n))

/-- The SHA-256 round constants. -/
def sha256K : List Nat :=
  [1116352408, 1899447441, 3049323471, 3921009573, 961987163, 1508970993,
   2453635748, 2870763221, 3624381080, 310598401, 607225278, 1426881987,
   1925078388, 2162078206, 2614888103, 3248222580, 3835390401, 4022224774,
   264347078, 604807628, 770255983, 1249150122, 1555081692, 1996064986,
   2554220882, 2821834349, 2952996808, 3210313671, 3336571891, 3584528711,
   113926993, 338241895, 666307205, 773529912, 1294757372, 1396182291,
   1695183700, 1986661051, 2177026350, 2456956037, 2730485921, 2820302411,
   3259730800, 3345764771, 3516065817, 3600352804, 4094571909, 275423344,
   430227734, 506948616, 659060556, 883997877, 958139571, 1322822218,
   1537002063, 1747873779, 1955562222, 2024104815, 2227730452, 2361852424,
   2428436474, 2756734187, 3204031479, 3329325298]
/-- The SHA-256 initial hash values. -/
def sha256H0 : List Nat :=
  [1779033703, 3144134277, 1013904242, 2773480762, 1359893119, 2600822924,
   528734635, 1541459225]
/-- `k` bytes of `v`, most significant first. -/
def beBytes : Nat → Nat → List Nat
  | 0, _ => []
  | k + 1, v => beBytes k (v / 256) ++ [v % 256]

/-- SHA-256 message padding: `0x80`, zeros to 56 mod 64, 8-byte bit length. -/
def sha256Pad (msg : List Nat) : List Nat :=
  let L := msg.length
  let zeros := (64 + 56 - (L + 1) % 64) % 64
  msg ++ [128] ++ List.replicate zeros 0 ++ beBytes 8 (8 * L)

/-- Split into 64-byte chunks; the fuel (any bound on the chunk count, the
padded length is used) makes the recursion structural. -/
def chunksOf64 : Nat → List Nat → List (List Nat)
  | 0, _ => []
  | _ + 1, [] => []
  | fuel + 1, l => l.take 64 :: chunksOf64 fuel (l.drop 64)

/-- Big-endian 32-bit words of a chunk. -/
def bytesToWords : List Nat → List Nat
  | b0 :: b1 :: b2 :: b3 :: rest =>
    (b0 * 16777216 + b1 * 65536 + b2 * 256 + b3) :: bytesToWords rest
  | _ => []

/-- Extend the 16 schedule words to 64, `k` extension steps at a time. -/
def extendSchedule : Nat → List Nat → List Nat
  | 0, w => w
  | k + 1, w =>
    let i := w.length
    let x15 := w.getD (i - 15) 0
    let x2 := w.getD (i - 2) 0
    let s0 := rotr32 7 x15 ^^^ rotr32 18 x15 ^^^ x15 / 2 ^ 3
    let s1 := rotr32 17 x2 ^^^ rotr32 19 x2 ^^^ x2 / 2 ^ 10
    extendSchedule k (w ++ [w32 (w.getD (i - 16) 0 + s0 + w.getD (i - 7) 0 + s1)])

/-- The eight working variables of the compression loop. -/
structure Sha256State where
  a : Nat
  b : Nat
  c : Nat
  d : Nat
  e : Nat
  f : Nat
  g : Nat
  h : Nat

/-- One SHA-256 compression round with round constant and schedule word. -/
def sha256Round (st : Sha256State) (kw : Nat × Nat) : Sha256State :=
  let s1 := rotr32 6 st.e ^^^ rotr32 11 st.e ^^^ rotr32 25 st.e
  let ch := (st.e &&& st.f) ^^^ ((st.e ^^^ 4294967295) &&& st.g)
  let temp1 := w32 (st.h + s1 + ch + kw.1 + kw.2)
  let s0 := rotr32 2 st.a ^^^ rotr32 13 st.a ^^^ rotr32 22 st.a
  let maj := (st.a &&& st.b) ^^^ (st.a &&& st.c) ^^^ (st.b &&& st.c)
  ⟨w32 (temp1 + w32 (s0 + maj)), st.a, st.b, st.c, w32 (st.d + temp1), st.e, st.f, st.g⟩

/-- Process one 64-byte chunk into the running hash values. -/
def sha256Chunk (hs : List Nat) (chunk : List Nat) : List Nat :=
  let w := extendSchedule 48 (bytesToWords chunk)
  let st0 : Sha256State :=
    ⟨hs.getD 0 0, hs.getD 1 0, hs.getD 2 0, hs.getD 3 0,
      hs.getD 4 0, hs.getD 5 0, hs.getD 6 0, hs.getD 7 0⟩
  let st := (sha256K.zip w).foldl sha256Round st0
  [w32 (hs.getD 0 0 + st.a), w32 (hs.getD 1 0 + st.b), w32 (hs.getD 2 0 + st.c),
    w32 (hs.getD 3 0 + st.d), w32 (hs.getD 4 0 + st.e), w32 (hs.getD 5 0 + st.f),
    w32 (hs.getD 6 0 + st.g), w32 (hs.getD 7 0 + st.h)]

/-- SHA-256 digest bytes of a byte message. -/
def sha256Bytes (msg : List Nat) : List Nat :=
  let padded := sha256Pad msg
  ((chunksOf64 padded.length padded).foldl sha256Chunk sha256H0).flatMap (beBytes 4)

def hexDigit (n : Nat) : String :=
  String.singleton ("0123456789abcdef".data.getD n '0')

def hexByte (b : Nat) : String := hexDigit (b / 16) ++ hexDigit (b % 16)

/-- Embedding of `hash_text`: the lowercase hex SHA-256 digest of the UTF-8
bytes. -/
def hash_text (s : String) : String :=
  String.join ((sha256Bytes (utf8Encode s)).map hexByte)

/-! ### The exact-match index of `find_duplicate_functions.py` -/

/-- One occurrence recorded in `func_index[hash]`. -/
structure ExOcc where
  path : String
  name : String
  lineno : Option Int
deriving DecidableEq

/-- One record of `extract_functions` joined with its file path. -/
structure ExRec where
  path : String
  name : String
  lineno : Option Int
  hash : String
deriving DecidableEq

def ExRec.toOcc (r : ExRec) : ExOcc := ⟨r.path, r.name, r.lineno⟩

/-- A reported duplicate group. -/
structure DupGroup where
  function_hash : String
  occurrences : List ExOcc
deriving DecidableEq

/-- Embedding of the per-function loop of `extract_functions`: the
`(name, lineno, hash)` triples of the module-level function-like definitions,
in source order.  `normalized_ast_dump` mutates the node in place (the exact
tool takes no deep copy), so by the time `getattr(node, "lineno", None)` is
read the position attributes have already been set to `None`: the recorded
line number of every occurrence is the stripped one, `None`. -/
def extract_functions (m : PyModule) : List (String × Option Int × String) :=
  m.filterMap (fun ts =>
    match ts with
    | .fdef f =>
      let stripped := stripFunctionDef f
      some (stripped.name, stripped.pos.lineno, hash_text (dumpFunctionDef stripped))
    | .other _ => none)

/-- The grouping and reporting of `main`: `func_index` maps each hash to its
occurrences in insertion order (modelled as an order-preserving filter per
first-occurrence-ordered key), groups with 2+ occurrences are kept, and the
result is stably sorted by descending occurrence count. -/
def dupeGroups (recs : List ExRec) : List DupGroup :=
  let dupes := (firstDedup (recs.map (fun r => r.hash))).filterMap (fun h =>
    let occ := (recs.filter (fun r => r.hash == h)).map ExRec.toOcc
    if 1 < occ.length then some (DupGroup.mk h occ) else none)
  dupes.insertionSort (fun g1 g2 => g2.occurrences.length ≤ g1.occurrences.length)

/-! ### Run models

A scanned file either reads and parses to a module or fails in one of three
ways that the two tools treat differently: a read failure (`read_text`
raising) is caught by both tools, a `SyntaxError` from `ast.parse` is caught
by both (`except SyntaxError` in the exact tool, `except Exception` in the
near tool), but any other exception escaping `ast.parse` — observed concretely
as `MemoryError`/`RecursionError` on pathologically nested source, and
`ValueError` on NUL bytes in older interpreters — is caught only by the near
tool's `except Exception` and propagates out of the exact tool, aborting it.
The `raise SystemExit` on a missing root and an uncaught exception both become
the `Except.error` branch (non-zero exit, no output); a completed run
returning 0 becomes `Except.ok` with the reported content. -/

/-- The outcome of `read_text` plus `ast.parse` on one candidate file. -/
inductive ParseOutcome where
  | parsed (m : PyModule)
  | readFailure
  | syntaxError
  | parseFailure (msg : String)

/-- Whether the outcome is a non-`SyntaxError` exception escaping `ast.parse`,
the only per-file outcome that crashes the exact tool. -/
def ParseOutcome.isCrash : ParseOutcome → Bool
  | .parseFailure _ => true
  | _ => false

/-- Whether the file contributed a module. -/
def ParseOutcome.isParsed : ParseOutcome → Bool
  | .parsed _ => true
  | _ => false

/-- A candidate source file: its path (relative to the root) and the outcome
of reading and parsing it. -/
structure PyFile where
  path : String
  result : ParseOutcome

/-- Embedding of `extract_functions` of the exact tool, per file: a read
failure returns `[]` (`except Exception`), a `SyntaxError` returns `[]`
(`except SyntaxError`), any other parse exception propagates (the error
branch), and a parsed module yields its records. -/
def exactFileRecords (fl : PyFile) : Except String (List ExRec) :=
  match fl.result with
  | .parsed m => Except.ok ((extract_functions m).map (fun e => ⟨fl.path, e.1, e.2.1, e.2.2⟩))
  | .readFailure => Except.ok []
  | .syntaxError => Except.ok []
  | .parseFailure msg => Except.error msg

/-- The file loop of the exact tool's `main`: records accumulate file by file
until an uncaught exception aborts the run. -/
def exactScan : List PyFile → Except String (List ExRec)
  | [] => Except.ok []
  | fl :: rest =>
    match exactFileRecords fl with
    | Except.error e => Except.error e
    | Except.ok rs =>
      match exactScan rest with
      | Except.error e => Except.error e
      | Except.ok rest2 => Except.ok (rs ++ rest2)

/-- The whole run of `find_duplicate_functions.py`. -/
def runExactTool (rootPath : String) (rootExists : Bool) (files : List PyFile) :
    Except String (List DupGroup) :=
  if !rootExists then Except.error ("Root not found: " ++ rootPath)
  else
    match exactScan (files.insertionSort (fun f g => f.path ≤ g.path)) with
    | Except.error e => Except.error e
    | Except.ok recs => Except.ok (dupeGroups recs)

/-- The records the near-duplicate tool gathers from one file
(`collect_functions`): its `except Exception: continue` skips every read and
parse failure, and a function whose normalization returns nothing falsy is
skipped (`if not nd: continue`). -/
def nearFileRecords (fl : PyFile) : List FuncRecord :=
  match fl.result with
  | .parsed m =>
    m.filterMap (fun ts =>
      match ts with
      | .fdef f =>
        match normalized_function_body_dump (.fdef f) with
        | Option.none => none
        | some nd => if nd = "" then none else some ⟨fl.path, f.name, f.pos.lineno, nd⟩
      | .other _ => none)
  | _ => []

/-- Embedding of `collect_functions` over the eligible files in sorted order. -/
def collect_functions (files : List PyFile) : List FuncRecord :=
  (files.insertionSort (fun f g => f.path ≤ g.path)).flatMap nearFileRecords

/-- The whole run of `find_near_duplicate_functions.py`. -/
def runNearTool (rootPath : String) (rootExists : Bool) (files : List PyFile) (t : ℚ) :
    Except String (List SimPair) :=
  if !rootExists then Except.error ("Root not found: " ++ rootPath)
  else Except.ok (nearDuplicatePairs t (collect_functions files))

/-! ### Helper lemmas about the pairing loop -/

theorem samePlace_eq_true_iff {x y : FuncRecord} :
    samePlace x y = true ↔ (x.path = y.path ∧ x.lineno = y.lineno) := by
  unfold samePlace
  simp

theorem samePlace_comm {x y : FuncRecord} : samePlace x y = samePlace y x := by
  unfold samePlace
  nth_rewrite 2 [Bool.beq_comm]
  rw [Bool.beq_comm]

theorem lengthSkip_comm {x y : FuncRecord} : lengthSkip x y = lengthSkip y x := by
  simp only [lengthSkip]
  rw [max_comm x.normalized_dump.length, min_comm x.normalized_dump.length]

theorem considerPair_some {t : ℚ} {x y : FuncRecord} {p : SimPair}
    (h : considerPair t x y = some p) :
    p.a = x ∧ p.b = y ∧ p.ratio = ratioStr x.normalized_dump y.normalized_dump ∧
      samePlace x y = false ∧ lengthSkip x y = false ∧ t ≤ p.ratio := by
  unfold considerPair at h
  by_cases h1 : samePlace x y
  · simp [h1] at h
  · by_cases h2 : lengthSkip x y
    · simp [h1, h2] at h
    · by_cases h3 : t ≤ ratioStr x.normalized_dump y.normalized_dump
      · simp only [Bool.not_eq_true] at h1 h2
        simp only [h1, h2, if_pos h3, Bool.false_eq_true, if_false, Option.some.injEq] at h
        subst h
        exact ⟨rfl, rfl, rfl, h1, h2, h3⟩
      · simp [h1, h2, h3] at h

theorem considerPair_of_conditions {t : ℚ} {x y : FuncRecord}
    (h1 : samePlace x y = false) (h2 : lengthSkip x y = false)
    (h3 : t ≤ ratioStr x.normalized_dump y.normalized_dump) :
    considerPair t x y = some ⟨x, y, ratioStr x.normalized_dump y.normalized_dump⟩ := by
  unfold considerPair
  simp [h1, h2, h3]

theorem mem_orderedPairs {p : α × α} :
    ∀ {l : List α}, p ∈ orderedPairs l → p.1 ∈ l ∧ p.2 ∈ l := by
  intro l
  induction l with
  | nil => intro h; simp [orderedPairs] at h
  | cons a tl ih =>
    intro h
    rw [orderedPairs, List.mem_append] at h
    rcases h with h | h
    · obtain ⟨z, hz, hzp⟩ := List.mem_map.1 h
      subst hzp
      exact ⟨List.mem_cons_self a tl, List.mem_cons_of_mem a hz⟩
    · obtain ⟨h1, h2⟩ := ih h
      exact ⟨List.mem_cons_of_mem a h1, List.mem_cons_of_mem a h2⟩

theorem orderedPairs_cover {x y : α} :
    ∀ {l : List α}, x ∈ l → y ∈ l → x ≠ y →
      (x, y) ∈ orderedPairs l ∨ (y, x) ∈ orderedPairs l := by
  intro l
  induction l with
  | nil => intro hx; simp at hx
  | cons a tl ih =>
    intro hx hy hne
    rcases List.mem_cons.1 hx with rfl | hx2
    · have hy2 : y ∈ tl := by
        rcases List.mem_cons.1 hy with rfl | hy2
        · exact absurd rfl hne
        · exact hy2
      exact Or.inl (by
        rw [orderedPairs, List.mem_append]
        exact Or.inl (List.mem_map.2 ⟨y, hy2, rfl⟩))
    · rcases List.mem_cons.1 hy with rfl | hy2
      · exact Or.inr (by
          rw [orderedPairs, List.mem_append]
          exact Or.inl (List.mem_map.2 ⟨x, hx2, rfl⟩))
      · rcases ih hx2 hy2 hne with h | h
        · exact Or.inl (by rw [orderedPairs, List.mem_append]; exact Or.inr h)
        · exact Or.inr (by rw [orderedPairs, List.mem_append]; exact Or.inr h)

theorem mem_nearDuplicatePairs {t : ℚ} {funcs : List FuncRecord} {p : SimPair}
    (h : p ∈ nearDuplicatePairs t funcs) :
    ∃ k ∈ sortedKeys funcs, ∃ q ∈ orderedPairs (windowCandidates funcs k),
      considerPair t q.1 q.2 = some p := by
  unfold nearDuplicatePairs at h
  rw [List.mem_insertionSort] at h
  unfold allKeptPairs at h
  rw [List.mem_flatMap] at h
  obtain ⟨k, hk, hp⟩ := h
  exact ⟨k, hk, List.mem_filterMap.1 hp⟩

theorem mem_comparedPairs {funcs : List FuncRecord} {q : FuncRecord × FuncRecord}
    (h : q ∈ comparedPairs funcs) :
    ∃ k ∈ sortedKeys funcs, q ∈ orderedPairs (windowCandidates funcs k) ∧
      samePlace q.1 q.2 = false ∧ lengthSkip q.1 q.2 = false := by
  unfold comparedPairs at h
  rw [List.mem_flatMap] at h
  obtain ⟨k, hk, hq⟩ := h
  unfold windowCompared at hq
  obtain ⟨hmem, hcond⟩ := List.mem_filter.1 hq
  simp only [Bool.and_eq_true, Bool.not_eq_true'] at hcond
  exact ⟨k, hk, hmem, hcond.1, hcond.2⟩

theorem comparedPairs_intro {funcs : List FuncRecord} {q : FuncRecord × FuncRecord}
    {k : Int} (hk : k ∈ sortedKeys funcs)
    (hmem : q ∈ orderedPairs (windowCandidates funcs k))
    (h1 : samePlace q.1 q.2 = false) (h2 : lengthSkip q.1 q.2 = false) :
    q ∈ comparedPairs funcs := by
  unfold comparedPairs
  rw [List.mem_flatMap]
  refine ⟨k, hk, ?_⟩
  unfold windowCompared
  exact List.mem_filter.2 ⟨hmem, by simp [h1, h2]⟩

theorem nearDuplicatePairs_intro {t : ℚ} {funcs : List FuncRecord} {p : SimPair}
    {k : Int} {q : FuncRecord × FuncRecord} (hk : k ∈ sortedKeys funcs)
    (hmem : q ∈ orderedPairs (windowCandidates funcs k))
    (hc : considerPair t q.1 q.2 = some p) :
    p ∈ nearDuplicatePairs t funcs := by
  unfold nearDuplicatePairs
  rw [List.mem_insertionSort]
  unfold allKeptPairs
  rw [List.mem_flatMap]
  exact ⟨k, hk, List.mem_filterMap.2 ⟨q, hmem, hc⟩⟩

/-- C7: the near-duplicate tool never pairs an occurrence with itself — every
reported pair differs in path or in line number, because a candidate pair with
identical path and line is skipped before comparison. -/
theorem near_dup_no_self_pair (t : ℚ) (funcs : List FuncRecord) (p : SimPair)
    (hp : p ∈ nearDuplicatePairs t funcs) :
    ¬(p.a.path = p.b.path ∧ p.a.lineno = p.b.lineno) := by
  obtain ⟨k, _, q, _, hc⟩ := mem_nearDuplicatePairs hp
  obtain ⟨ha, hb, _, hsp, _, _⟩ := considerPair_some hc
  intro hcontra
  rw [ha, hb] at hcontra
  rw [samePlace_eq_true_iff.2 hcontra] at hsp
  exact Bool.true_eq_false ▸ hsp

theorem lengthSkip_false_iff {x y : FuncRecord} :
    lengthSkip x y = false ↔
      ((max x.normalized_dump.length y.normalized_dump.length
          - min x.normalized_dump.length y.normalized_dump.length : ℕ) : ℚ)
        ≤ max 120 (mkRat (min x.normalized_dump.length y.normalized_dump.length * 35) 100) := by
  simp only [lengthSkip]
  rw [decide_eq_false_iff_not, not_lt]

/-- C6: every candidate pair whose similarity ratio is computed — and a
fortiori every reported pair — satisfies the length pre-filter: the absolute
difference of the normalized-dump lengths does not exceed
`max(120, 0.35 * min(length_a, length_b))`; pairs exceeding the bound are
skipped before the ratio computation. -/
theorem near_dup_length_prefilter_bound (t : ℚ) (funcs : List FuncRecord) :
    (∀ q ∈ comparedPairs funcs,
      ((max q.1.normalized_dump.length q.2.normalized_dump.length
          - min q.1.normalized_dump.length q.2.normalized_dump.length : ℕ) : ℚ)
        ≤ max 120 (mkRat (min q.1.normalized_dump.length q.2.normalized_dump.length * 35) 100)) ∧
    (∀ p ∈ nearDuplicatePairs t funcs,
      ((max p.a.normalized_dump.length p.b.normalized_dump.length
          - min p.a.normalized_dump.length p.b.normalized_dump.length : ℕ) : ℚ)
        ≤ max 120 (mkRat (min p.a.normalized_dump.length p.b.normalized_dump.length * 35) 100)) := by
  constructor
  · intro q hq
    obtain ⟨_, _, _, _, hskip⟩ := mem_comparedPairs hq
    exact lengthSkip_false_iff.1 hskip
  · intro p hp
    obtain ⟨k, _, q, _, hc⟩ := mem_nearDuplicatePairs hp
    obtain ⟨ha, hb, _, _, hskip, _⟩ := considerPair_some hc
    rw [ha, hb]
    exact lengthSkip_false_iff.1 hskip

/-- C5: a candidate pair that reaches the ratio computation is kept exactly
when its similarity ratio is at least the threshold (inclusive comparison). -/
theorem near_dup_threshold_inclusive (t : ℚ) (funcs : List FuncRecord)
    (x y : FuncRecord) (hcmp : (x, y) ∈ comparedPairs funcs) :
    ((⟨x, y, ratioStr x.normalized_dump y.normalized_dump⟩ : SimPair)
        ∈ nearDuplicatePairs t funcs)
      ↔ t ≤ ratioStr x.normalized_dump y.normalized_dump := by
  constructor
  · intro hmem
    obtain ⟨k, hk, q, hq, hc⟩ := mem_nearDuplicatePairs hmem
    obtain ⟨_, _, _, _, _, ht⟩ := considerPair_some hc
    exact ht
  · intro ht
    obtain ⟨k, hk, hq, h1, h2⟩ := mem_comparedPairs hcmp
    exact nearDuplicatePairs_intro hk hq (considerPair_of_conditions h1 h2 ht)

/-! ### Bucket membership lemmas -/

theorem mem_bucketOf {funcs : List FuncRecord} {k : Int} {z : FuncRecord}
    (hz : z ∈ funcs) (hk : bucket_key z.normalized_dump = k) :
    z ∈ bucketOf funcs k :=
  List.mem_filter.2 ⟨hz, by simp [hk]⟩

theorem mem_windowCandidates {funcs : List FuncRecord} {k : Int} {z : FuncRecord}
    (h : z ∈ windowCandidates funcs k) :
    z ∈ funcs ∧ (bucket_key z.normalized_dump = k ∨ bucket_key z.normalized_dump = k - 1
      ∨ bucket_key z.normalized_dump = k + 1) := by
  unfold windowCandidates bucketOf at h
  rcases List.mem_append.1 h with h | h
  · rcases List.mem_append.1 h with h | h
    · obtain ⟨hmem, hcond⟩ := List.mem_filter.1 h
      exact ⟨hmem, Or.inl (by simpa using hcond)⟩
    · obtain ⟨hmem, hcond⟩ := List.mem_filter.1 h
      exact ⟨hmem, Or.inr (Or.inl (by simpa using hcond))⟩
  · obtain ⟨hmem, hcond⟩ := List.mem_filter.1 h
    exact ⟨hmem, Or.inr (Or.inr (by simpa using hcond))⟩

theorem mem_firstDedupAux [DecidableEq α] {a : α} :
    ∀ (l seen : List α), a ∈ firstDedupAux seen l ↔ (a ∈ l ∧ a ∉ seen) := by
  intro l
  induction l with
  | nil => intro seen; simp [firstDedupAux]
  | cons x xs ih =>
    intro seen
    by_cases hx : x ∈ seen
    · rw [firstDedupAux, if_pos hx]
      constructor
      · intro h
        obtain ⟨h1, h2⟩ := (ih seen).1 h
        exact ⟨List.mem_cons_of_mem x h1, h2⟩
      · rintro ⟨hmem, hns⟩
        rcases List.mem_cons.1 hmem with rfl | hmem
        · exact absurd hx hns
        · exact (ih seen).2 ⟨hmem, hns⟩
    · rw [firstDedupAux, if_neg hx]
      constructor
      · intro h
        rcases List.mem_cons.1 h with rfl | h
        · exact ⟨List.mem_cons_self a xs, hx⟩
        · obtain ⟨h1, h2⟩ := (ih (x :: seen)).1 h
          refine ⟨List.mem_cons_of_mem x h1, fun hc => h2 (List.mem_cons_of_mem x hc)⟩
      · rintro ⟨hmem, hns⟩
        rcases List.mem_cons.1 hmem with rfl | hmem
        · exact List.mem_cons_self a _
        · by_cases hax : a = x
          · subst hax; exact List.mem_cons_self a _
          · refine List.mem_cons_of_mem x ((ih (x :: seen)).2 ⟨hmem, ?_⟩)
            intro hc
            rcases List.mem_cons.1 hc with h | h
            · exact hax h
            · exact hns h

theorem mem_firstDedup [DecidableEq α] {a : α} {l : List α} :
    a ∈ firstDedup l ↔ a ∈ l := by
  unfold firstDedup
  rw [mem_firstDedupAux]
  simp

theorem mem_sortedKeys {funcs : List FuncRecord} {z : FuncRecord} (hz : z ∈ funcs) :
    bucket_key z.normalized_dump ∈ sortedKeys funcs := by
  unfold sortedKeys
  rw [List.mem_insertionSort, mem_firstDedup]
  exact List.mem_map.2 ⟨z, hz, rfl⟩

/-- C10: two records whose bucket keys differ by three or more are never
ratio-compared and never reported, for every threshold, because each candidate
window only spans three adjacent buckets. -/
theorem near_dup_distant_buckets_never_compared (t : ℚ) (funcs : List FuncRecord)
    (x y : FuncRecord)
    (hk : 3 ≤ (bucket_key x.normalized_dump - bucket_key y.normalized_dump).natAbs) :
    (∀ q ∈ comparedPairs funcs, ¬((q.1 = x ∧ q.2 = y) ∨ (q.1 = y ∧ q.2 = x))) ∧
    (∀ p ∈ nearDuplicatePairs t funcs, ¬((p.a = x ∧ p.b = y) ∨ (p.a = y ∧ p.b = x))) := by
  have key : ∀ (k : Int) (u v : FuncRecord), u ∈ windowCandidates funcs k →
      v ∈ windowCandidates funcs k →
      (bucket_key u.normalized_dump - bucket_key v.normalized_dump).natAbs ≤ 2 := by
    intro k u v hu hv
    obtain ⟨_, hu2⟩ := mem_windowCandidates hu
    obtain ⟨_, hv2⟩ := mem_windowCandidates hv
    omega
  constructor
  · intro q hq hcontra
    obtain ⟨k, _, hmem, _, _⟩ := mem_comparedPairs hq
    obtain ⟨h1, h2⟩ := mem_orderedPairs hmem
    have hb := key k q.1 q.2 h1 h2
    rcases hcontra with ⟨rfl, rfl⟩ | ⟨rfl, rfl⟩ <;> omega
  · intro p hp hcontra
    obtain ⟨k, _, q, hmem, hc⟩ := mem_nearDuplicatePairs hp
    obtain ⟨ha, hb2, _, _, _, _⟩ := considerPair_some hc
    obtain ⟨h1, h2⟩ := mem_orderedPairs hmem
    have hb := key k q.1 q.2 h1 h2
    rw [ha, hb2] at hcontra
    rcases hcontra with ⟨rfl, rfl⟩ | ⟨rfl, rfl⟩ <;> omega

theorem near_dup_boundary_helper (funcs : List FuncRecord) (x y : FuncRecord)
    (hx : x ∈ funcs) (hy : y ∈ funcs)
    (hlen : y.normalized_dump.length = x.normalized_dump.length + 120)
    (hsp : samePlace x y = false) :
    (x, y) ∈ comparedPairs funcs ∨ (y, x) ∈ comparedPairs funcs := by
  have hky : bucket_key y.normalized_dump = bucket_key x.normalized_dump + 1 := by
    unfold bucket_key
    rw [hlen, Nat.add_div_right _ (by norm_num)]
    push_cast
    ring
  have hkmem := mem_sortedKeys hx
  have hxc : x ∈ windowCandidates funcs (bucket_key x.normalized_dump) :=
    List.mem_append_left _ (List.mem_append_left _ (mem_bucketOf hx rfl))
  have hyc : y ∈ windowCandidates funcs (bucket_key x.normalized_dump) :=
    List.mem_append_right _ (mem_bucketOf hy hky)
  have hne : x ≠ y := by
    intro he
    rw [he] at hlen
    omega
  have hskip : lengthSkip x y = false := by
    rw [lengthSkip_false_iff, hlen]
    have h1 : min x.normalized_dump.length (x.normalized_dump.length + 120)
        = x.normalized_dump.length := min_eq_left (Nat.le_add_right _ _)
    have h2 : max x.normalized_dump.length (x.normalized_dump.length + 120)
        = x.normalized_dump.length + 120 := max_eq_right (Nat.le_add_right _ _)
    rw [h1, h2, Nat.add_sub_cancel_left]
    calc ((120 : ℕ) : ℚ) = (120 : ℚ) := by norm_num
    _ ≤ max 120 (mkRat (x.normalized_dump.length * 35) 100) := le_max_left _ _
  have hsp2 : samePlace y x = false := samePlace_comm ▸ hsp
  have hskip2 : lengthSkip y x = false := lengthSkip_comm ▸ hskip
  rcases orderedPairs_cover hxc hyc hne with h | h
  · exact Or.inl (comparedPairs_intro hkmem h hsp hskip)
  · exact Or.inr (comparedPairs_intro hkmem h hsp2 hskip2)

/-- C8: two extracted records whose normalized-dump lengths differ by exactly
the bucket width (120 characters) are still ratio-compared: their buckets are
adjacent, so they share a candidate window, and the length pre-filter does not
skip a difference of exactly 120. -/
theorem near_dup_bucket_boundary_compared (funcs : List FuncRecord) (x y : FuncRecord)
    (hx : x ∈ funcs) (hy : y ∈ funcs)
    (hlen : y.normalized_dump.length = x.normalized_dump.length + 120 ∨
      x.normalized_dump.length = y.normalized_dump.length + 120)
    (hsp : ¬(x.path = y.path ∧ x.lineno = y.lineno)) :
    (x, y) ∈ comparedPairs funcs ∨ (y, x) ∈ comparedPairs funcs := by
  have hspb : samePlace x y = false := by
    rw [← Bool.not_eq_true]
    intro hc
    exact hsp (samePlace_eq_true_iff.1 hc)
  rcases hlen with h | h
  · exact near_dup_boundary_helper funcs x y hx hy h hspb
  · rcases near_dup_boundary_helper funcs y x hy hx h (samePlace_comm ▸ hspb) with h2 | h2
    · exact Or.inr h2
    · exact Or.inl h2

/-! ### C1: duplicated reporting across overlapping bucket windows -/

/-- Whether a similarity pair consists of the unordered pair of records
`{x, y}` (in either order). -/
def pairMatches (x y : FuncRecord) (p : SimPair) : Bool :=
  (p.a == x && p.b == y) || (p.a == y && p.b == x)

/-- A one-character dump: bucket 0. -/
def c1recA : FuncRecord := ⟨"a.py", "f", some 1, "A"⟩

/-- An identical dump in a second file: bucket 0, ratio 1 against `c1recA`. -/
def c1recB : FuncRecord := ⟨"b.py", "f", some 1, "A"⟩

/-- A 120-character dump: bucket 1, which makes both bucket windows overlap
on buckets 0 and 1. -/
def c1recC : FuncRecord := ⟨"c.py", "g", some 1, String.mk (List.replicate 120 'z')⟩

def c1Funcs : List FuncRecord := [c1recA, c1recB, c1recC]

theorem countP_filterMap_le {f : α → Option β} {q : β → Bool} {pr : α → Bool}
    (hpt : ∀ a b, f a = some b → q b = pr a) :
    ∀ l : List α, (l.filterMap f).countP q ≤ l.countP pr := by
  intro l
  induction l with
  | nil => simp
  | cons a tl ih =>
    rw [List.filterMap_cons, List.countP_cons]
    cases hfa : f a with
    | none => exact le_trans ih (Nat.le_add_right _ _)
    | some b =>
      rw [List.countP_cons, hpt a b hfa]
      exact Nat.add_le_add ih (le_refl _)

theorem countP_orderedPairs_nodup [DecidableEq α] (x y : α) :
    ∀ {l : List α}, l.Nodup →
      (orderedPairs l).countP
        (fun p => (p.1 == x && p.2 == y) || (p.1 == y && p.2 == x)) ≤ 1 := by
  intro l
  induction l with
  | nil => intro _; simp [orderedPairs]
  | cons a tl ih =>
    intro hnd
    obtain ⟨hna, hndtl⟩ := List.nodup_cons.1 hnd
    rw [orderedPairs, List.countP_append, List.countP_map]
    have hop : ∀ p : α × α, p ∈ orderedPairs tl → p.1 ≠ a ∧ p.2 ≠ a := by
      intro p hp
      obtain ⟨h1, h2⟩ := mem_orderedPairs hp
      exact ⟨fun he => hna (he ▸ h1), fun he => hna (he ▸ h2)⟩
    have hrest0 : (a = x ∨ a = y) → (orderedPairs tl).countP
        (fun p => (p.1 == x && p.2 == y) || (p.1 == y && p.2 == x)) = 0 := by
      intro hcase
      rw [List.countP_eq_zero]
      intro p hp
      obtain ⟨h1, h2⟩ := hop p hp
      rw [Bool.not_eq_true, Bool.or_eq_false_iff, Bool.and_eq_false_iff, Bool.and_eq_false_iff]
      rcases hcase with rfl | rfl
      · exact ⟨Or.inl (beq_eq_false_iff_ne.2 h1), Or.inr (beq_eq_false_iff_ne.2 h2)⟩
      · exact ⟨Or.inr (beq_eq_false_iff_ne.2 h2), Or.inl (beq_eq_false_iff_ne.2 h1)⟩
    by_cases hax : a = x
    · by_cases hay : a = y
      · have hmap : tl.countP
            ((fun p : α × α => (p.1 == x && p.2 == y) || (p.1 == y && p.2 == x))
              ∘ (fun b => (a, b))) = 0 := by
          rw [List.countP_eq_zero]
          intro z hz
          simp only [Function.comp_apply]
          rw [← hax, ← hay, beq_self_eq_true, Bool.true_and, Bool.or_self]
          intro he
          exact hna (eq_of_beq he ▸ hz)
        rw [hmap, hrest0 (Or.inl hax)]
        omega
      · have hmap : tl.countP
            ((fun p : α × α => (p.1 == x && p.2 == y) || (p.1 == y && p.2 == x))
              ∘ (fun b => (a, b))) = tl.count y := by
          refine List.countP_congr ?_
          intro z _
          simp only [Function.comp_apply]
          rw [← hax, beq_self_eq_true, Bool.true_and,
            beq_eq_false_iff_ne.2 hay, Bool.false_and, Bool.or_false]
        rw [hmap, hrest0 (Or.inl hax)]
        have := List.nodup_iff_count_le_one.1 hndtl y
        omega
    · by_cases hay : a = y
      · have hmap : tl.countP
            ((fun p : α × α => (p.1 == x && p.2 == y) || (p.1 == y && p.2 == x))
              ∘ (fun b => (a, b))) = tl.count x := by
          refine List.countP_congr ?_
          intro z _
          simp only [Function.comp_apply]
          rw [← hay, beq_self_eq_true, Bool.true_and,
            beq_eq_false_iff_ne.2 hax, Bool.false_and, Bool.false_or]
        rw [hmap, hrest0 (Or.inr hay)]
        have := List.nodup_iff_count_le_one.1 hndtl x
        omega
      · have hmap : tl.countP
            ((fun p : α × α => (p.1 == x && p.2 == y) || (p.1 == y && p.2 == x))
              ∘ (fun b => (a, b))) = 0 := by
          rw [List.countP_eq_zero]
          intro z _
          simp only [Function.comp_apply]
          rw [beq_eq_false_iff_ne.2 hax, beq_eq_false_iff_ne.2 hay,
            Bool.false_and, Bool.false_and, Bool.or_self]
          exact Bool.false_ne_true
        rw [hmap]
        have hrest := ih hndtl
        omega

theorem windowCandidates_nodup {funcs : List FuncRecord} (hnd : funcs.Nodup) (k : Int) :
    (windowCandidates funcs k).Nodup := by
  unfold windowCandidates bucketOf
  have h1 := hnd.filter (fun f => bucket_key f.normalized_dump == k)
  have h2 := hnd.filter (fun f => bucket_key f.normalized_dump == k - 1)
  have h3 := hnd.filter (fun f => bucket_key f.normalized_dump == k + 1)
  have hd12 : (funcs.filter (fun f => bucket_key f.normalized_dump == k)).Disjoint
      (funcs.filter (fun f => bucket_key f.normalized_dump == k - 1)) := by
    intro a ha1 ha2
    have e1 := (List.mem_filter.1 ha1).2
    have e2 := (List.mem_filter.1 ha2).2
    simp only [beq_iff_eq] at e1 e2
    omega
  have hd3 : ((funcs.filter (fun f => bucket_key f.normalized_dump == k))
      ++ funcs.filter (fun f => bucket_key f.normalized_dump == k - 1)).Disjoint
      (funcs.filter (fun f => bucket_key f.normalized_dump == k + 1)) := by
    intro a ha1 ha2
    have e3 := (List.mem_filter.1 ha2).2
    simp only [beq_iff_eq] at e3
    rcases List.mem_append.1 ha1 with h | h
    · have e := (List.mem_filter.1 h).2
      simp only [beq_iff_eq] at e
      omega
    · have e := (List.mem_filter.1 h).2
      simp only [beq_iff_eq] at e
      omega
  exact ((h1.append h2 hd12).append h3 hd3)

/-- C1 counterexample: with threshold 3/4 and three records — two identical
one-character dumps in bucket 0 plus one 120-character dump in bucket 1 — the
unordered pair of the two identical records is reported twice: once while
processing bucket 0 (whose window includes bucket 1) and once while processing
bucket 1 (whose window includes bucket 0). -/
theorem near_dup_pair_reported_twice :
    (reportedPairs (mkRat 3 4) c1Funcs).countP (pairMatches c1recA c1recB) = 2 := by
  decide

/-- C1 amended: within the processing of a single bucket window over
duplicate-free records, every unordered pair of occurrences is appended at
most once (the `i < j` iteration order); the same unordered pair can however
be reported again by the overlapping window of an adjacent bucket, as the
counterexample shows. -/
theorem near_dup_window_pair_unique (t : ℚ) (funcs : List FuncRecord)
    (hnd : funcs.Nodup) (k : Int) (x y : FuncRecord) :
    (windowKept t (windowCandidates funcs k)).countP (pairMatches x y) ≤ 1 := by
  have hcand := windowCandidates_nodup hnd k
  have step1 : (windowKept t (windowCandidates funcs k)).countP (pairMatches x y)
      ≤ (orderedPairs (windowCandidates funcs k)).countP
          (fun q => (q.1 == x && q.2 == y) || (q.1 == y && q.2 == x)) := by
    unfold windowKept
    apply countP_filterMap_le
    intro q p hq
    obtain ⟨ha, hb, _, _, _, _⟩ := considerPair_some hq
    simp [pairMatches, ha, hb]
  exact le_trans step1 (countP_orderedPairs_nodup x y hcand)

/-- C1 amended, witness: the per-window uniqueness instantiated at the
counterexample's records and bucket 0. -/
theorem near_dup_window_pair_unique_witness :
    c1Funcs.Nodup ∧
      (windowKept (mkRat 3 4) (windowCandidates c1Funcs 0)).countP
        (pairMatches c1recA c1recB) ≤ 1 :=
  ⟨by decide, near_dup_window_pair_unique (mkRat 3 4) c1Funcs (by decide) 0 c1recA c1recB⟩

/-! ### The exact-match grouping -/

theorem dupeGroups_mem_iff {recs : List ExRec} {g : DupGroup} :
    g ∈ dupeGroups recs ↔
      (g.function_hash ∈ firstDedup (recs.map (fun r => r.hash)) ∧
        g.occurrences = (recs.filter (fun r => r.hash == g.function_hash)).map ExRec.toOcc ∧
        1 < g.occurrences.length) := by
  obtain ⟨gh, gocc⟩ := g
  unfold dupeGroups
  rw [List.mem_insertionSort, List.mem_filterMap]
  constructor
  · rintro ⟨h0, hmem, heq⟩
    by_cases hl : 1 < ((recs.filter (fun r => r.hash == h0)).map ExRec.toOcc).length
    · rw [if_pos hl] at heq
      obtain ⟨rfl, rfl⟩ := DupGroup.mk.injEq .. ▸ Option.some.injEq .. ▸ heq
      exact ⟨hmem, rfl, hl⟩
    · rw [if_neg hl] at heq
      exact absurd heq (Option.noConfusion)
  · rintro ⟨h1, h2, h3⟩
    refine ⟨gh, h1, ?_⟩
    simp only at h2 h3
    rw [← h2, if_pos (h2 ▸ h3)]

/-- C4: a hash group is reported iff it has at least two occurrences, the
reported groups are sorted by descending occurrence count, and an empty
function set yields zero groups rather than an error. -/
theorem exact_dup_groups_spec (recs : List ExRec) :
    (∀ hsh : String,
      (2 ≤ recs.countP (fun r => r.hash == hsh) ↔
        ∃ g ∈ dupeGroups recs, g.function_hash = hsh)) ∧
    (dupeGroups recs).Pairwise (fun g1 g2 => g2.occurrences.length ≤ g1.occurrences.length) ∧
    dupeGroups ([] : List ExRec) = [] := by
  refine ⟨?_, ?_, rfl⟩
  · intro hsh
    constructor
    · intro hcount
      obtain ⟨r, hr, hpr⟩ := List.countP_pos_iff.1 (lt_of_lt_of_le (by norm_num) hcount)
      refine ⟨⟨hsh, (recs.filter (fun r => r.hash == hsh)).map ExRec.toOcc⟩,
        dupeGroups_mem_iff.2 ⟨?_, rfl, ?_⟩, rfl⟩
      · rw [mem_firstDedup]
        exact List.mem_map.2 ⟨r, hr, beq_iff_eq.1 hpr⟩
      · rw [List.length_map, ← List.countP_eq_length_filter]
        omega
    · rintro ⟨g, hg, rfl⟩
      obtain ⟨_, hocc, hlen⟩ := dupeGroups_mem_iff.1 hg
      rw [hocc, List.length_map, ← List.countP_eq_length_filter] at hlen
      omega
  · haveI : IsTotal DupGroup (fun g1 g2 => g2.occurrences.length ≤ g1.occurrences.length) :=
      ⟨fun a b => Nat.le_total b.occurrences.length a.occurrences.length⟩
    haveI : IsTrans DupGroup (fun g1 g2 => g2.occurrences.length ≤ g1.occurrences.length) :=
      ⟨fun _ _ _ hab hbc => le_trans hbc hab⟩
    exact List.sorted_insertionSort _ _

/-- C4, witness: on a concrete record list, the hash occurring twice is
reported in a group while the grouping invariants hold. -/
def c4Recs : List ExRec :=
  [⟨"a.py", "f", some 1, "h1"⟩, ⟨"b.py", "g", some 3, "h2"⟩, ⟨"c.py", "h", some 5, "h1"⟩]

theorem exact_dup_groups_spec_witness :
    2 ≤ c4Recs.countP (fun r => r.hash == "h1") ∧
      (∃ g ∈ dupeGroups c4Recs, g.function_hash = "h1") :=
  ⟨by decide, ((exact_dup_groups_spec c4Recs).1 "h1").1 (by decide)⟩

theorem countP_two_of_mem {p : ExRec → Bool} {r1 r2 : ExRec} {recs : List ExRec}
    (h1 : r1 ∈ recs) (h2 : r2 ∈ recs) (hne : r1 ≠ r2)
    (hp1 : p r1 = true) (hp2 : p r2 = true) : 2 ≤ recs.countP p := by
  obtain ⟨s, t, rfl⟩ := List.append_of_mem h1
  rw [List.countP_append, List.countP_cons, hp1, if_pos rfl]
  rcases List.mem_append.1 h2 with h | h
  · have := List.countP_pos_iff.2 ⟨r2, h, hp2⟩
    omega
  · rcases List.mem_cons.1 h with rfl | h
    · exact absurd rfl hne
    · have := List.countP_pos_iff.2 ⟨r2, h, hp2⟩
      omega

/-- Two distinct records carrying the same hash always share a reported
duplicate group. -/
theorem dupeGroups_pair_mem {recs : List ExRec} {r1 r2 : ExRec} {H : String}
    (hr1 : r1 ∈ recs) (hr2 : r2 ∈ recs) (hne : r1 ≠ r2)
    (hh1 : r1.hash = H) (hh2 : r2.hash = H) :
    ∃ grp ∈ dupeGroups recs, r1.toOcc ∈ grp.occurrences ∧ r2.toOcc ∈ grp.occurrences := by
  have hcount : 2 ≤ recs.countP (fun r => r.hash == H) :=
    countP_two_of_mem hr1 hr2 hne (beq_iff_eq.2 hh1) (beq_iff_eq.2 hh2)
  refine ⟨⟨H, (recs.filter (fun r => r.hash == H)).map ExRec.toOcc⟩,
    dupeGroups_mem_iff.2 ⟨?_, rfl, ?_⟩, ?_, ?_⟩
  · rw [mem_firstDedup]
    exact List.mem_map.2 ⟨r1, hr1, hh1⟩
  · rw [List.length_map, ← List.countP_eq_length_filter]
    omega
  · exact List.mem_map.2 ⟨r1, List.mem_filter.2 ⟨hr1, beq_iff_eq.2 hh1⟩, rfl⟩
  · exact List.mem_map.2 ⟨r2, List.mem_filter.2 ⟨hr2, beq_iff_eq.2 hh2⟩, rfl⟩

/-- C3: two function definitions that agree after stripping the source
position attributes produce byte-identical normalized dumps, hence identical
hashes, and whenever both occur as distinct records of a run they land in a
common reported duplicate group. -/
theorem exact_position_insensitive (f g : PyFunctionDef)
    (hstrip : stripFunctionDef f = stripFunctionDef g) :
    normalized_ast_dump f = normalized_ast_dump g ∧
    hash_text (normalized_ast_dump f) = hash_text (normalized_ast_dump g) ∧
    (∀ (recs : List ExRec) (r1 r2 : ExRec), r1 ∈ recs → r2 ∈ recs →
      r1.hash = hash_text (normalized_ast_dump f) →
      r2.hash = hash_text (normalized_ast_dump g) → r1 ≠ r2 →
      ∃ grp ∈ dupeGroups recs, r1.toOcc ∈ grp.occurrences ∧ r2.toOcc ∈ grp.occurrences) := by
  have hdump : normalized_ast_dump f = normalized_ast_dump g := by
    unfold normalized_ast_dump
    rw [hstrip]
  refine ⟨hdump, by rw [hdump], ?_⟩
  intro recs r1 r2 hr1 hr2 hh1 hh2 hne
  exact dupeGroups_pair_mem hr1 hr2 hne hh1 (by rw [hh2, ← hdump])

/-- Concrete inputs for the position-insensitivity witness: the same
`def duplicate(): return 42` shape at two different source positions. -/
def c3FunA : PyFunctionDef :=
  ⟨⟨some 1, some 0, some 2, some 13⟩, "duplicate", ⟨[], none, none⟩,
    [.ret ⟨some 2, some 4, some 2, some 13⟩ (some (.const ⟨some 2, some 11, some 2, some 13⟩ (.intC 42)))],
    false⟩

def c3FunB : PyFunctionDef :=
  ⟨⟨some 7, some 0, some 8, some 13⟩, "duplicate", ⟨[], none, none⟩,
    [.ret ⟨some 8, some 4, some 8, some 13⟩ (some (.const ⟨some 8, some 11, some 8, some 13⟩ (.intC 42)))],
    false⟩

theorem exact_position_insensitive_witness :
    stripFunctionDef c3FunA = stripFunctionDef c3FunB ∧
      (normalized_ast_dump c3FunA = normalized_ast_dump c3FunB ∧
        hash_text (normalized_ast_dump c3FunA) = hash_text (normalized_ast_dump c3FunB) ∧
        (∀ (recs : List ExRec) (r1 r2 : ExRec), r1 ∈ recs → r2 ∈ recs →
          r1.hash = hash_text (normalized_ast_dump c3FunA) →
          r2.hash = hash_text (normalized_ast_dump c3FunB) → r1 ≠ r2 →
          ∃ grp ∈ dupeGroups recs, r1.toOcc ∈ grp.occurrences ∧ r2.toOcc ∈ grp.occurrences)) :=
  ⟨rfl, exact_position_insensitive c3FunA c3FunB rfl⟩

/-! ### C9: root check and per-file failure semantics -/

/-- A readable file whose `ast.parse` raises something other than a
`SyntaxError`: observed concretely as `MemoryError` raised by
`ast.parse("-" * 100000 + "1")` on CPython 3.11.6, also reachable as
`RecursionError` on deeply nested source or `ValueError` on NUL bytes in
older interpreters. -/
def c9CrashFile : PyFile := ⟨"crash.py", .parseFailure "MemoryError"⟩

/-- A file whose parse raises a `SyntaxError`: skipped by both tools. -/
def c9BadFile : PyFile := ⟨"bad.py", .syntaxError⟩

/-- A file that parses to an empty module. -/
def c9GoodFile : PyFile := ⟨"good.py", .parsed []⟩

/-- C9 counterexample: with an existing scan root, a readable file whose
`ast.parse` raises a non-`SyntaxError` exception escapes the exact tool's
`except SyntaxError` and aborts the run with a non-zero exit before any output
— the tool aborts although the root exists, and the failing file did not
contribute zero records to a completing run, refuting both the
abort-iff-root-missing clause and the per-file-skip clause. -/
theorem exact_tool_crashes_on_non_syntax_parse_failure :
    (runExactTool "root" true [c9CrashFile]).isOk = false ∧
      runExactTool "root" true [c9CrashFile] = Except.error "MemoryError" :=
  ⟨rfl, rfl⟩

theorem exactScan_ok_of_no_crash :
    ∀ {l : List PyFile}, (∀ fl ∈ l, fl.result.isCrash = false) →
      (exactScan l).isOk = true := by
  intro l
  induction l with
  | nil => intro _; rfl
  | cons a rest ih =>
    intro h
    have ha := h a (List.mem_cons_self a rest)
    have hrest := ih (fun fl hfl => h fl (List.mem_cons_of_mem a hfl))
    rw [exactScan]
    match hfa : exactFileRecords a with
    | Except.error e =>
      exfalso
      unfold exactFileRecords at hfa
      unfold ParseOutcome.isCrash at ha
      cases hres : a.result <;> rw [hres] at hfa ha <;> simp at hfa ha
    | Except.ok rs =>
      match hsc : exactScan rest with
      | Except.error e => rw [hsc] at hrest; exact Bool.noConfusion hrest
      | Except.ok rest2 => rfl

theorem exactScan_error_of_crash :
    ∀ {l : List PyFile} {fl : PyFile}, fl ∈ l → fl.result.isCrash = true →
      (exactScan l).isOk = false := by
  intro l
  induction l with
  | nil => intro fl hfl; simp at hfl
  | cons a rest ih =>
    intro fl hfl hcrash
    rw [exactScan]
    rcases List.mem_cons.1 hfl with rfl | hfl2
    · unfold ParseOutcome.isCrash at hcrash
      match hres : fl.result with
      | ParseOutcome.parsed m => rw [hres] at hcrash; simp at hcrash
      | ParseOutcome.readFailure => rw [hres] at hcrash; simp at hcrash
      | ParseOutcome.syntaxError => rw [hres] at hcrash; simp at hcrash
      | ParseOutcome.parseFailure msg =>
        have hrec : exactFileRecords fl = Except.error msg := by
          unfold exactFileRecords
          rw [hres]
        rw [hrec]
        rfl
    · match hfa : exactFileRecords a with
      | Except.error e => rfl
      | Except.ok rs =>
        have hrest := ih hfl2 hcrash
        match hsc : exactScan rest with
        | Except.error e => rfl
        | Except.ok rest2 => rw [hsc] at hrest; exact Bool.noConfusion hrest

/-- C9 amended: both tools abort with the root-not-found error when the scan
root is missing.  The near-duplicate tool aborts only then: with an existing
root it always completes with exit 0, and every file that fails to read or
parse (for any reason) contributes zero records.  The exact tool skips files
that fail to read and files whose parse raises a `SyntaxError`, and completes
with exit 0 when no scanned file raises anything else; but a file whose parse
raises a non-`SyntaxError` exception propagates it and aborts the exact run
with a non-zero exit before output. -/
theorem tools_root_check_and_per_file_skip (rootPath : String)
    (files : List PyFile) (t : ℚ) :
    (runExactTool rootPath false files = Except.error ("Root not found: " ++ rootPath) ∧
      runNearTool rootPath false files t = Except.error ("Root not found: " ++ rootPath)) ∧
    ((runNearTool rootPath true files t).isOk = true) ∧
    (∀ fl ∈ files, fl.result.isParsed = false → nearFileRecords fl = []) ∧
    (∀ fl ∈ files, (fl.result = ParseOutcome.readFailure ∨ fl.result = ParseOutcome.syntaxError) →
      exactFileRecords fl = Except.ok []) ∧
    (∀ fl ∈ files, ∀ msg, fl.result = ParseOutcome.parseFailure msg →
      exactFileRecords fl = Except.error msg) ∧
    ((∀ fl ∈ files, fl.result.isCrash = false) →
      (runExactTool rootPath true files).isOk = true) ∧
    (∀ fl ∈ files, fl.result.isCrash = true →
      (runExactTool rootPath true files).isOk = false) := by
  refine ⟨⟨rfl, rfl⟩, rfl, ?_, ?_, ?_, ?_, ?_⟩
  · intro fl _ hp
    unfold nearFileRecords
    unfold ParseOutcome.isParsed at hp
    match hres : fl.result with
    | ParseOutcome.parsed m => rw [hres] at hp; exact Bool.noConfusion hp
    | ParseOutcome.readFailure => rfl
    | ParseOutcome.syntaxError => rfl
    | ParseOutcome.parseFailure msg => rfl
  · intro fl _ hp
    rcases hp with h | h <;> (unfold exactFileRecords; rw [h])
  · intro fl _ msg h
    unfold exactFileRecords
    rw [h]
  · intro hnone
    have : ∀ fl ∈ files.insertionSort (fun f g => f.path ≤ g.path),
        fl.result.isCrash = false := by
      intro fl hfl
      exact hnone fl ((List.mem_insertionSort _).1 hfl)
    unfold runExactTool
    rw [Bool.not_true, if_neg (by simp)]
    have hscan := exactScan_ok_of_no_crash this
    match hsc : exactScan (files.insertionSort (fun f g => f.path ≤ g.path)) with
    | Except.error e => rw [hsc] at hscan; exact Bool.noConfusion hscan
    | Except.ok recs => rfl
  · intro fl hfl hcrash
    have hmem : fl ∈ files.insertionSort (fun f g => f.path ≤ g.path) :=
      (List.mem_insertionSort _).2 hfl
    unfold runExactTool
    rw [Bool.not_true, if_neg (by simp)]
    have hscan := exactScan_error_of_crash hmem hcrash
    match hsc : exactScan (files.insertionSort (fun f g => f.path ≤ g.path)) with
    | Except.error e => rfl
    | Except.ok recs => rw [hsc] at hscan; exact Bool.noConfusion hscan

/-- C9 amended, witness: a missing root aborts both tools; with an existing
root the near tool completes even on the crashing file and the skipped files
contribute nothing; the exact tool completes on the syntax-error file but
aborts on the crashing file. -/
theorem tools_root_check_witness :
    runExactTool "root" false [c9BadFile] = Except.error "Root not found: root" ∧
      (runNearTool "root" true [c9CrashFile] 1).isOk = true ∧
      nearFileRecords c9CrashFile = [] ∧
      exactFileRecords c9BadFile = Except.ok [] ∧
      exactFileRecords c9CrashFile = Except.error "MemoryError" ∧
      (runExactTool "root" true [c9GoodFile, c9BadFile]).isOk = true ∧
      (runExactTool "root" true [c9GoodFile, c9CrashFile]).isOk = false :=
  ⟨(tools_root_check_and_per_file_skip "root" [c9BadFile] 1).1.1,
    (tools_root_check_and_per_file_skip "root" [c9CrashFile] 1).2.1,
    (tools_root_check_and_per_file_skip "root" [c9CrashFile] 1).2.2.1
      c9CrashFile (List.mem_cons_self _ _) rfl,
    (tools_root_check_and_per_file_skip "root" [c9BadFile] 1).2.2.2.1
      c9BadFile (List.mem_cons_self _ _) (Or.inr rfl),
    (tools_root_check_and_per_file_skip "root" [c9CrashFile] 1).2.2.2.2.1
      c9CrashFile (List.mem_cons_self _ _) "MemoryError" rfl,
    (tools_root_check_and_per_file_skip "root" [c9GoodFile, c9BadFile] 1).2.2.2.2.2.1
      (by decide),
    (tools_root_check_and_per_file_skip "root" [c9GoodFile, c9CrashFile] 1).2.2.2.2.2.2
      c9CrashFile (List.mem_cons_of_mem _ (List.mem_cons_self _ _)) rfl⟩

/-! ### C2: the parameter renaming of the name-agnostic normalizer -/

/-- The definition `def f(ARG1, ARG0): pass`: its original parameter names
collide with the positional placeholders of other positions. -/
def c2Fun : PyFunctionDef :=
  ⟨⟨some 1, some 0, some 1, some 22⟩, "f",
    ⟨[⟨⟨some 1, some 6, some 1, some 10⟩, "ARG1"⟩,
      ⟨⟨some 1, some 12, some 1, some 16⟩, "ARG0"⟩], none, none⟩,
    [.passStmt ⟨some 1, some 19, some 1, some 23⟩], false⟩

/-- C2, failing input: on `def f(ARG1, ARG0): pass` the walk re-applies
`arg_map` to the already renamed parameter nodes, leaving the first positional
parameter named `ARG1` and the second `ARG0` — not `ARG0`, `ARG1` as the
claim requires. -/
theorem normalizer_swaps_colliding_params :
    ((normalizeFunc c2Fun).args.args.map (fun a => a.arg) = ["ARG1", "ARG0"]) ∧
      ¬((normalizeFunc c2Fun).args.args.map (fun a => a.arg) = ["ARG0", "ARG1"]) :=
  ⟨by decide, by decide⟩

/-! ### Remaining witnesses -/

/-- C7, witness: a concretely reported pair has distinct locations. -/
theorem near_dup_no_self_pair_witness :
    (⟨c1recA, c1recB, 1⟩ : SimPair) ∈ nearDuplicatePairs (mkRat 3 4) c1Funcs ∧
      ¬((c1recA : FuncRecord).path = c1recB.path ∧ c1recA.lineno = c1recB.lineno) :=
  ⟨by decide, near_dup_no_self_pair (mkRat 3 4) c1Funcs ⟨c1recA, c1recB, 1⟩ (by decide)⟩

/-- C5, witness: a concretely compared pair with ratio 1 is kept iff the
threshold 3/4 is at most 1. -/
theorem near_dup_threshold_inclusive_witness :
    ((c1recA, c1recB) ∈ comparedPairs c1Funcs) ∧
      (((⟨c1recA, c1recB, ratioStr c1recA.normalized_dump c1recB.normalized_dump⟩ : SimPair)
          ∈ nearDuplicatePairs (mkRat 3 4) c1Funcs)
        ↔ mkRat 3 4 ≤ ratioStr c1recA.normalized_dump c1recB.normalized_dump) :=
  ⟨by decide, near_dup_threshold_inclusive (mkRat 3 4) c1Funcs c1recA c1recB (by decide)⟩

/-- C6, witness: a concretely compared pair satisfies the length bound. -/
theorem near_dup_length_prefilter_bound_witness :
    ((c1recA, c1recC) ∈ comparedPairs c1Funcs) ∧
      ((max (c1recA : FuncRecord).normalized_dump.length c1recC.normalized_dump.length
          - min (c1recA : FuncRecord).normalized_dump.length c1recC.normalized_dump.length : ℕ) : ℚ)
        ≤ max 120 (mkRat (min (c1recA : FuncRecord).normalized_dump.length
            c1recC.normalized_dump.length * 35) 100) :=
  ⟨by decide,
    (near_dup_length_prefilter_bound (mkRat 3 4) c1Funcs).1 (c1recA, c1recC) (by decide)⟩

/-- An empty dump: bucket 0, length 0. -/
def c8rec : FuncRecord := ⟨"e.py", "e", some 2, ""⟩

def c8Funcs : List FuncRecord := [c8rec, c1recC]

/-- C8, witness: dumps of lengths 0 and 120 (exactly one bucket width apart)
are still compared. -/
theorem near_dup_bucket_boundary_compared_witness :
    c8rec ∈ c8Funcs ∧ (c1recC : FuncRecord) ∈ c8Funcs ∧
      ((c1recC : FuncRecord).normalized_dump.length = c8rec.normalized_dump.length + 120 ∨
        c8rec.normalized_dump.length = (c1recC : FuncRecord).normalized_dump.length + 120) ∧
      ¬(c8rec.path = (c1recC : FuncRecord).path ∧ c8rec.lineno = c1recC.lineno) ∧
      ((c8rec, c1recC) ∈ comparedPairs c8Funcs ∨ (c1recC, c8rec) ∈ comparedPairs c8Funcs) :=
  ⟨by decide, by decide, by decide, by decide,
    near_dup_bucket_boundary_compared c8Funcs c8rec c1recC (by decide) (by decide)
      (by decide) (by decide)⟩

/-- A 360-character dump: bucket 3. -/
def c10rec : FuncRecord := ⟨"w.py", "w", some 4, String.mk (List.replicate 360 'z')⟩

def c10Funcs : List FuncRecord := [c8rec, c10rec]

/-- C10, witness: dumps in buckets 0 and 3 are never compared nor reported. -/
theorem near_dup_distant_buckets_witness :
    3 ≤ (bucket_key c8rec.normalized_dump - bucket_key c10rec.normalized_dump).natAbs ∧
      (∀ q ∈ comparedPairs c10Funcs, ¬((q.1 = c8rec ∧ q.2 = c10rec) ∨ (q.1 = c10rec ∧ q.2 = c8rec))) ∧
      (∀ p ∈ nearDuplicatePairs (mkRat 3 4) c10Funcs,
        ¬((p.a = c8rec ∧ p.b = c10rec) ∨ (p.a = c10rec ∧ p.b = c8rec))) :=
  ⟨by decide,
    (near_dup_distant_buckets_never_compared (mkRat 3 4) c10Funcs c8rec c10rec (by decide)).1,
    (near_dup_distant_buckets_never_compared (mkRat 3 4) c10Funcs c8rec c10rec (by decide)).2⟩

end DupFind
